import Mathlib

/-!
Verification of `src/scripts/genpasw.py`, a CLI passphrase generator:
Resolver → Fetcher → Merger → Sampler → output.

Modelling conventions for the shallow embedding:
* Python strings are sequences of Unicode code points, modelled as `List Nat`
  (`Word`); `ofString` converts a Lean string literal for concrete tests.
* `sys.exit(...)` (fatal error) is modelled as `Except.error ()`.
* Randomness (`random.choices`) is modelled by passing the drawn indices
  explicitly; `random.shuffle` and the arbitrary iteration order of
  `list(set(...))` are modelled by quantifying over permutations of the
  canonically deduplicated list.
* The filesystem is a partial map from file names to contents; the network is
  a function from attempt number to failure/success and from file name to
  fetched contents.
-/

namespace Genpasw

/-- A Python string: its sequence of Unicode code points. -/
abbrev Word := List Nat

/-- Convert a Lean string literal into the `Word` encoding. -/
def ofString (s : String) : Word := s.toList.map Char.toNat

/-- `NUM_WORDS_IN_PASSPHRASE = 5` (line 22). -/
def NUM_WORDS_IN_PASSPHRASE : Nat := 5

/-- `MAX_RETRIES = 3` (line 23). -/
def MAX_RETRIES : Nat := 3

/-- One entry of the `WORDLISTS` configuration dictionary (lines 12–21). -/
structure WordlistSource where
  filename : String
  url : String
deriving DecidableEq

/-- The `WORDLISTS` dictionary, in its (insertion-ordered) iteration order. -/
def WORDLISTS : List (String × WordlistSource) :=
  [("english",
    ⟨"words_alpha.txt",
     "https://raw.githubusercontent.com/dwyl/english-words/master/words_alpha.txt"⟩),
   ("italian",
    ⟨"660000_parole_italiane.txt",
     "https://raw.githubusercontent.com/napolux/paroleitaliane/refs/heads/main/paroleitaliane/660000_parole_italiane.txt"⟩)]

/-! ## Resolver (`get_wordlist_path`, lines 27–31) -/

/-- A `pathlib.Path`: whether it is absolute, and its components. -/
structure Path where
  isAbsolute : Bool
  parts : List String
deriving DecidableEq

/-- Split a character list at `/` separators. -/
def splitSlashAux : List Char → List Char → List (List Char)
  | [], acc => [acc.reverse]
  | c :: rest, acc =>
    if c = '/' then acc.reverse :: splitSlashAux rest []
    else splitSlashAux rest (c :: acc)

/-- `pathlib.Path(s)`: parse a path string into components; the path is
absolute exactly when the string starts with `/`. -/
def parsePath (s : String) : Path :=
  ⟨(match s.toList with
    | c :: _ => c = '/'
    | [] => false),
   ((splitSlashAux s.toList []).map (fun p => String.mk p)).filter
     (fun p => p ≠ "")⟩

/-- `Path.expanduser()`: a leading `~` component of a relative path is replaced
by the home directory; all other paths are returned unchanged. -/
def expanduser (home : Path) (p : Path) : Path :=
  if p.isAbsolute then p
  else
    match p.parts with
    | "~" :: rest => ⟨home.isAbsolute, home.parts ++ rest⟩
    | _ => p

/-- `DEFAULT_WORDLIST_DIR = pathlib.Path.home() / "wordlists"` (line 11),
parametrised by the home directory. -/
def DEFAULT_WORDLIST_DIR (home : Path) : Path :=
  ⟨home.isAbsolute, home.parts ++ ["wordlists"]⟩

/-- `get_wordlist_path` (lines 27–31). `custom_path = some s` models passing
the string `s`; Python's truthiness test `if custom_path:` is false for both
`None` and the empty string. -/
def get_wordlist_path (home : Path) (custom_path : Option String) : Path :=
  match custom_path with
  | some s => if s ≠ "" then expanduser home (parsePath s) else DEFAULT_WORDLIST_DIR home
  | none => DEFAULT_WORDLIST_DIR home

/-! ## Fetcher (`download_file`, lines 33–54) -/

/-- The retry loop of `download_file` (lines 37–54), iterating over the listed
attempt numbers. `attemptFails i = true` means the `i`-th GET request raises
`requests.exceptions.RequestException`. Returns
(number of attempts performed, backoff waits slept in seconds, success flag);
a `false` flag models `sys.exit` after the last attempt. -/
def download_loop (attemptFails : Nat → Bool) : List Nat → Nat × List Nat × Bool
  | [] => (0, [], false)
  | a :: rest =>
    if attemptFails a then
      if a < MAX_RETRIES - 1 then
        let r := download_loop attemptFails rest
        (r.1 + 1, (2 ^ a) :: r.2.1, r.2.2)
      else
        (1, [], false)
    else
      (1, [], true)

/-- `download_file` (lines 33–54): `for attempt in range(MAX_RETRIES)`. -/
def download_file (attemptFails : Nat → Bool) : Nat × List Nat × Bool :=
  download_loop attemptFails (List.range MAX_RETRIES)

/-! ## The download step of `__main__` (lines 118–126) -/

/-- The on-disk cache directory: file name → contents, `none` when absent. -/
abbrev FileSystem := String → Option (List Word)

/-- One iteration of the loop at lines 119–123: if the target file does not
exist, download it (writing the fetched contents) and record the download. -/
def ensure_one (fetch : String → List Word) (st : FileSystem × List String)
    (filename : String) : FileSystem × List String :=
  match st.1 filename with
  | some _ => st
  | none =>
    (fun n => if n = filename then some (fetch filename) else st.1 n,
     st.2 ++ [filename])

/-- The whole download step (lines 118–126): iterate over `WORDLISTS`,
downloading only absent files. Returns the resulting filesystem together with
the list of file names for which `download_file` was invoked. -/
def ensure_wordlists (fs : FileSystem) (fetch : String → List Word) :
    FileSystem × List String :=
  WORDLISTS.foldl (fun st kv => ensure_one fetch st kv.2.filename) (fs, [])

/-! ## Merger (`load_and_merge_words`, lines 56–89) -/

/-- Python's default `str.strip()` whitespace characters
(`string.whitespace`: space, tab, newline, carriage return, vertical tab,
form feed), as code points. -/
def isSpaceChar (c : Nat) : Bool :=
  c == 32 || c == 9 || c == 10 || c == 13 || c == 11 || c == 12

/-- `line.strip()`: drop leading and trailing whitespace. -/
def strip (l : Word) : Word :=
  ((l.dropWhile isSpaceChar).reverse.dropWhile isSpaceChar).reverse

/-- `str.lower()` on one code point (restricted to ASCII letters, the
alphabet of the word list files). -/
def lowerChar (c : Nat) : Nat :=
  if 65 ≤ c ∧ c ≤ 90 then c + 32 else c

/-- `line.lower()`. -/
def lower (l : Word) : Word := l.map lowerChar

/-- The per-file comprehension at line 68:
`[line.strip().lower() for line in f if line.strip()]`. -/
def processLines (lines : List Word) : List Word :=
  (lines.filter (fun l => !(strip l).isEmpty)).map (fun l => lower (strip l))

/-- `load_and_merge_words` (lines 56–89), with the contents of the two source
files passed in (`none` models `FileNotFoundError`, which the function turns
into `sys.exit`). `list(set(merged_wordlist))` followed by `random.shuffle`
produces some permutation of the deduplicated words; the model returns the
canonical deduplication (first occurrences kept) and theorems quantify over
permutations of it. -/
def load_and_merge_words (english italian : Option (List Word)) :
    Except Unit (List Word) :=
  match english, italian with
  | some e, some i => .ok ((processLines e ++ processLines i).dedup)
  | _, _ => .error ()

/-! ## Sampler (`generate_passphrase`, lines 91–102) -/

/-- `generate_passphrase` (lines 91–102). `draws` are the indices selected by
`random.choices(wordlist, k=num_words)` (independent uniform draws, so any
index list of length `num_words` with entries below `len(wordlist)` is a
possible outcome). The words are joined with `"-"`. -/
def generate_passphrase (wordlist : List Word) (num_words : Nat)
    (draws : List Nat) : Except Unit Word :=
  if wordlist.length < num_words then .error ()
  else .ok (List.intercalate (ofString "-") (draws.map (fun i => wordlist.getD i [])))

/-! ## Output of `__main__` (lines 137–142) -/

/-- All lines `__main__` writes to standard output on a successful run:
the progress/status lines of the earlier stages, then the result block of
lines 138–142 (each `print` payload split at its embedded newlines). -/
def main_stdout_lines (progress : List String) (passphrase : String) :
    List String :=
  progress ++
    ["",
     "==========================================",
     "üîê Your Secure " ++ toString NUM_WORDS_IN_PASSPHRASE ++ "-Word Passphrase:",
     passphrase,
     "==========================================",
     "",
     "This password has approximately 100 bits of entropy and is considered very strong."]

/-! ## Theorems -/

/-- A concrete five-word collection used for witnesses. -/
def sample5 : List Word :=
  [ofString "alpha", ofString "bravo", ofString "charlie", ofString "delta",
   ofString "echo"]

/-- If `i < l.length` then `l.getD i []` is a member of `l`. -/
theorem getD_mem_of_lt (l : List Word) (i : Nat) (h : i < l.length) :
    l.getD i [] ∈ l := by
  have he : l.getD i [] = l.get ⟨i, h⟩ := by
    simp [List.getD_eq_getElem?_getD, List.getElem?_eq_getElem h]
  rw [he]
  exact l.get_mem i h

/-- C1: for every word collection with at least `NUM_WORDS_IN_PASSPHRASE` (=5)
elements and every possible outcome of the five independent draws,
`generate_passphrase` returns (without error) the string obtained by joining
exactly five words of the collection with exactly four hyphen separators
(`List.intercalate` inserts one `"-"` between consecutive words). -/
theorem sampler_returns_five_words (wordlist : List Word) (draws : List Nat)
    (hlen : NUM_WORDS_IN_PASSPHRASE ≤ wordlist.length)
    (hdraws : draws.length = NUM_WORDS_IN_PASSPHRASE)
    (hvalid : ∀ i ∈ draws, i < wordlist.length) :
    ∃ ws : List Word,
      ws.length = NUM_WORDS_IN_PASSPHRASE ∧ (∀ w ∈ ws, w ∈ wordlist) ∧
      generate_passphrase wordlist NUM_WORDS_IN_PASSPHRASE draws =
        .ok (List.intercalate (ofString "-") ws) := by
  refine ⟨draws.map (fun i => wordlist.getD i []), by simpa using hdraws, ?_, ?_⟩
  · intro w hw
    rw [List.mem_map] at hw
    obtain ⟨i, hi, rfl⟩ := hw
    exact getD_mem_of_lt wordlist i (hvalid i hi)
  · simp [generate_passphrase, Nat.not_lt.mpr hlen]

/-- Witness for C1 on a concrete five-word collection and draw sequence. -/
theorem sampler_returns_five_words_witness :
    ∃ ws : List Word,
      ws.length = NUM_WORDS_IN_PASSPHRASE ∧ (∀ w ∈ ws, w ∈ sample5) ∧
      generate_passphrase sample5 NUM_WORDS_IN_PASSPHRASE [0, 1, 2, 3, 4] =
        .ok (List.intercalate (ofString "-") ws) :=
  sampler_returns_five_words sample5 [0, 1, 2, 3, 4] (by decide) (by decide)
    (by decide)

/-- C3: `generate_passphrase` terminates with a fatal error exactly when the
collection has fewer elements than the requested count; otherwise it never
errors, whatever the draws. -/
theorem sampler_error_iff_insufficient (wordlist : List Word) (num_words : Nat)
    (draws : List Nat) :
    generate_passphrase wordlist num_words draws = .error () ↔
      wordlist.length < num_words := by
  unfold generate_passphrase
  split <;> simp [*]

/-- C6 counterexample: over a fixed collection of 2 words with N=5 the Sampler
never produces any passphrase (let alone one with a repeated word): for every
possible draw outcome it terminates with a fatal error, because 2 < 5 trips
the insufficient-words check. -/
theorem sampler_two_words_always_errors :
    generate_passphrase [ofString "aa", ofString "bb"] NUM_WORDS_IN_PASSPHRASE
        [0, 1, 0, 1, 0] = .error () ∧
    ∀ draws : List Nat,
      generate_passphrase [ofString "aa", ofString "bb"] NUM_WORDS_IN_PASSPHRASE
        draws = .error () :=
  ⟨rfl, fun _ => rfl⟩

/-- C6 amended: sampling is with replacement — over a collection of at least
N (=5) words some sequence of random draws produces a passphrase containing a
repeated word — but over a fixed collection of only 2 words with N=5 the
Sampler always terminates with a fatal error instead of producing any
passphrase. -/
theorem sampler_with_replacement_amended :
    (∀ draws : List Nat,
      generate_passphrase [ofString "aa", ofString "bb"] NUM_WORDS_IN_PASSPHRASE
        draws = .error ()) ∧
    ∃ draws : List Nat,
      draws.length = NUM_WORDS_IN_PASSPHRASE ∧
      (∀ i ∈ draws, i < sample5.length) ∧
      ∃ ws : List Word,
        ¬ ws.Nodup ∧ (∀ w ∈ ws, w ∈ sample5) ∧
        generate_passphrase sample5 NUM_WORDS_IN_PASSPHRASE draws =
          .ok (List.intercalate (ofString "-") ws) := by
  refine ⟨fun _ => rfl, [0, 0, 1, 0, 1], by decide, by decide,
    [ofString "alpha", ofString "alpha", ofString "bravo", ofString "alpha",
     ofString "bravo"], by decide, by decide, ?_⟩
  rfl

/-- C9: the empty string as custom directory argument is treated as absent
(Python truthiness), so the Resolver returns the default wordlist directory. -/
theorem resolver_empty_string_default (home : Path) :
    get_wordlist_path home (some "") = DEFAULT_WORDLIST_DIR home := by
  simp [get_wordlist_path]

/-- C4: when every attempt fails, `download_file` makes exactly
`MAX_RETRIES` (=3) attempts in total and then terminates fatally
(success flag `false`), sleeping `2^attempt` seconds between consecutive
attempts — waits `2^0 = 1` and `2^1 = 2`, which are strictly increasing. -/
theorem fetcher_three_attempts_backoff (attemptFails : Nat → Bool)
    (h : ∀ i, attemptFails i = true) :
    download_file attemptFails = (MAX_RETRIES, [2 ^ 0, 2 ^ 1], false) ∧
    2 ^ 0 < 2 ^ 1 := by
  constructor
  · show download_loop attemptFails [0, 1, 2] = (MAX_RETRIES, [2 ^ 0, 2 ^ 1], false)
    simp [download_loop, h, MAX_RETRIES]
  · decide

/-- Witness for C4: a network that always fails. -/
theorem fetcher_three_attempts_backoff_witness :
    download_file (fun _ => true) = (MAX_RETRIES, [2 ^ 0, 2 ^ 1], false) ∧
    2 ^ 0 < 2 ^ 1 :=
  fetcher_three_attempts_backoff (fun _ => true) (fun _ => rfl)

/-- `ensure_one` leaves the state unchanged when the file is present. -/
theorem ensure_one_present (fetch : String → List Word)
    (st : FileSystem × List String) (fn : String) (c : List Word)
    (h : st.1 fn = some c) : ensure_one fetch st fn = st := by
  unfold ensure_one
  rw [h]

/-- `ensure_one` downloads exactly when the file is absent. -/
theorem ensure_one_absent (fetch : String → List Word)
    (st : FileSystem × List String) (fn : String) (h : st.1 fn = none) :
    ensure_one fetch st fn =
      (fun n => if n = fn then some (fetch fn) else st.1 n, st.2 ++ [fn]) := by
  unfold ensure_one
  rw [h]

/-- C5: if a configured target file already exists in the filesystem, the
download step leaves its contents unchanged and never invokes `download_file`
for it; moreover every file that is downloaded was absent beforehand. -/
theorem fetcher_skips_existing (fs : FileSystem) (fetch : String → List Word)
    (name : String) (c : List Word) (h : fs name = some c) :
    (ensure_wordlists fs fetch).1 name = some c ∧
    name ∉ (ensure_wordlists fs fetch).2 ∧
    ∀ n ∈ (ensure_wordlists fs fetch).2, fs n = none := by
  have hne : ("660000_parole_italiane.txt" : String) ≠ "words_alpha.txt" := by
    decide
  have hstep : ensure_wordlists fs fetch =
      ensure_one fetch (ensure_one fetch (fs, []) "words_alpha.txt")
        "660000_parole_italiane.txt" := rfl
  rcases hE : fs "words_alpha.txt" with _ | cE
  · -- english absent
    have h1 : name ≠ "words_alpha.txt" := fun he => by
      rw [he, hE] at h; exact Option.noConfusion h
    rw [hstep, ensure_one_absent fetch (fs, []) "words_alpha.txt" hE]
    rcases hI : fs "660000_parole_italiane.txt" with _ | cI
    · -- italian absent as well: both files downloaded
      have h2 : name ≠ "660000_parole_italiane.txt" := fun he => by
        rw [he, hI] at h; exact Option.noConfusion h
      rw [ensure_one_absent fetch _ "660000_parole_italiane.txt"
        (by simp only [if_neg hne]; exact hI)]
      refine ⟨?_, ?_, ?_⟩
      · simp only [if_neg h1, if_neg h2]
        exact h
      · simp [h1, h2]
      · intro n hn
        simp only [List.nil_append, List.mem_append, List.mem_singleton] at hn
        rcases hn with hn | hn
        · rw [hn]; exact hE
        · rw [hn]; exact hI
    · -- italian present: only the english file downloaded
      rw [ensure_one_present fetch _ "660000_parole_italiane.txt" cI
        (by simp only [if_neg hne]; exact hI)]
      refine ⟨?_, ?_, ?_⟩
      · simp only [if_neg h1]
        exact h
      · simp [h1]
      · intro n hn
        simp only [List.nil_append, List.mem_singleton] at hn
        rw [hn]; exact hE
  · -- english present
    rw [hstep, ensure_one_present fetch (fs, []) "words_alpha.txt" cE hE]
    rcases hI : fs "660000_parole_italiane.txt" with _ | cI
    · -- italian absent: only the italian file downloaded
      have h2 : name ≠ "660000_parole_italiane.txt" := fun he => by
        rw [he, hI] at h; exact Option.noConfusion h
      rw [ensure_one_absent fetch (fs, []) "660000_parole_italiane.txt" hI]
      refine ⟨?_, ?_, ?_⟩
      · simp only [if_neg h2]
        exact h
      · simp [h2]
      · intro n hn
        simp only [List.nil_append, List.mem_singleton] at hn
        rw [hn]; exact hI
    · -- both present: nothing downloaded, filesystem untouched
      rw [ensure_one_present fetch (fs, []) "660000_parole_italiane.txt" cI hI]
      exact ⟨h, by simp, by simp⟩

/-- Witness for C5: a filesystem where the English list is already cached. -/
theorem fetcher_skips_existing_witness :
    (ensure_wordlists
        (fun n => if n = "words_alpha.txt" then some [ofString "hello"] else none)
        (fun _ => [ofString "fetched"])).1 "words_alpha.txt" =
      some [ofString "hello"] ∧
    "words_alpha.txt" ∉
      (ensure_wordlists
        (fun n => if n = "words_alpha.txt" then some [ofString "hello"] else none)
        (fun _ => [ofString "fetched"])).2 ∧
    ∀ n ∈ (ensure_wordlists
        (fun n => if n = "words_alpha.txt" then some [ofString "hello"] else none)
        (fun _ => [ofString "fetched"])).2,
      (fun n => if n = "words_alpha.txt" then some [ofString "hello"] else none :
        FileSystem) n = none :=
  fetcher_skips_existing _ _ "words_alpha.txt" [ofString "hello"] rfl

/-- C8 counterexample: with an absolute home directory and the relative custom
path `"mydir"`, the Resolver returns a relative path, not an absolute one. -/
theorem resolver_relative_custom_path :
    (get_wordlist_path ⟨true, ["home", "user"]⟩ (some "mydir")).isAbsolute =
      false := by
  decide

/-- C8 amended: with no custom path (or, by `resolver_empty_string_default`,
an empty one) the Resolver returns the fixed `wordlists` subdirectory of the
user's home directory, which is absolute whenever the home directory is; for
a non-empty custom path it returns the `expanduser`-expanded parse of that
string, which may be relative when the custom path is relative. -/
theorem resolver_amended (home : Path) (h : home.isAbsolute = true) :
    get_wordlist_path home none = DEFAULT_WORDLIST_DIR home ∧
    (get_wordlist_path home none).isAbsolute = true ∧
    (get_wordlist_path home none).parts = home.parts ++ ["wordlists"] ∧
    ∀ s, s ≠ "" →
      get_wordlist_path home (some s) = expanduser home (parsePath s) := by
  refine ⟨rfl, h, rfl, ?_⟩
  intro s hs
  simp [get_wordlist_path, hs]

/-- Witness for C8 amended at a concrete absolute home directory. -/
theorem resolver_amended_witness :
    get_wordlist_path ⟨true, ["home", "user"]⟩ none =
      DEFAULT_WORDLIST_DIR ⟨true, ["home", "user"]⟩ ∧
    (get_wordlist_path ⟨true, ["home", "user"]⟩ none).isAbsolute = true ∧
    (get_wordlist_path ⟨true, ["home", "user"]⟩ none).parts =
      ["home", "user"] ++ ["wordlists"] ∧
    ∀ s, s ≠ "" →
      get_wordlist_path ⟨true, ["home", "user"]⟩ (some s) =
        expanduser ⟨true, ["home", "user"]⟩ (parsePath s) :=
  resolver_amended ⟨true, ["home", "user"]⟩ rfl

/-- C7 counterexample: on a successful run the passphrase is printed, but the
final line written to standard output is the informational entropy message,
not the passphrase (lines 141–142 print after the passphrase). -/
theorem final_line_not_passphrase :
    (main_stdout_lines [] "alpha-bravo-charlie-delta-echo").getLast? ≠
      some "alpha-bravo-charlie-delta-echo" ∧
    "alpha-bravo-charlie-delta-echo" ∈
      main_stdout_lines [] "alpha-bravo-charlie-delta-echo" := by
  constructor
  · intro hc
    rw [show (main_stdout_lines [] "alpha-bravo-charlie-delta-echo").getLast? =
        some "This password has approximately 100 bits of entropy and is considered very strong."
      from rfl] at hc
    simp at hc
  · simp [main_stdout_lines]

/-- C7 amended: on every successful run the passphrase is printed on its own
line and every progress/status message precedes it, but it is not the final
line: it is followed by a separator line, a blank line and an informational
entropy message, which is the last line written. -/
theorem passphrase_line_before_tail (progress : List String)
    (passphrase : String) :
    (main_stdout_lines progress passphrase).take progress.length = progress ∧
    (main_stdout_lines progress passphrase)[progress.length + 3]? =
      some passphrase ∧
    (main_stdout_lines progress passphrase).getLast? =
      some "This password has approximately 100 bits of entropy and is considered very strong." := by
  refine ⟨?_, ?_, ?_⟩
  · simp only [main_stdout_lines]
    rw [List.take_left]
  · simp only [main_stdout_lines]
    rw [List.getElem?_append_right (by omega)]
    simp
  · simp only [main_stdout_lines, List.getLast?_append]
    rfl

/-- Lowercasing a code point is idempotent. -/
theorem lowerChar_idem (c : Nat) : lowerChar (lowerChar c) = lowerChar c := by
  unfold lowerChar
  by_cases h : 65 ≤ c ∧ c ≤ 90
  · rw [if_pos h, if_neg (by omega)]
  · rw [if_neg h, if_neg h]

/-- Lowercasing a word is idempotent. -/
theorem lower_idem (w : Word) : lower (lower w) = lower w := by
  unfold lower
  rw [List.map_map, show lowerChar ∘ lowerChar = lowerChar from funext lowerChar_idem]

/-- Membership in the per-file comprehension: exactly the lowercased stripped
versions of the lines whose stripped form is non-empty. -/
theorem mem_processLines (lines : List Word) (w : Word) :
    w ∈ processLines lines ↔
      ∃ l, l ∈ lines ∧ (strip l).isEmpty = false ∧ w = lower (strip l) := by
  constructor
  · intro hw
    rw [processLines, List.mem_map] at hw
    obtain ⟨l, hl, rfl⟩ := hw
    rw [List.mem_filter] at hl
    exact ⟨l, hl.1, by simpa using hl.2, rfl⟩
  · rintro ⟨l, hl, hne, rfl⟩
    rw [processLines, List.mem_map]
    exact ⟨l, List.mem_filter.mpr ⟨hl, by simpa using hne⟩, rfl⟩

/-- Every line splits as a whitespace prefix, its stripped core, and a
whitespace suffix: `strip` removes only leading and trailing whitespace. -/
theorem strip_split (l : Word) :
    ∃ pre suf : Word,
      (∀ c ∈ pre, isSpaceChar c = true) ∧ (∀ c ∈ suf, isSpaceChar c = true) ∧
      l = pre ++ strip l ++ suf := by
  refine ⟨l.takeWhile isSpaceChar,
    ((l.dropWhile isSpaceChar).reverse.takeWhile isSpaceChar).reverse,
    ?_, ?_, ?_⟩
  · intro c hc
    exact List.mem_takeWhile_imp hc
  · intro c hc
    rw [List.mem_reverse] at hc
    exact List.mem_takeWhile_imp hc
  · have hd : l.dropWhile isSpaceChar =
        strip l ++ ((l.dropWhile isSpaceChar).reverse.takeWhile isSpaceChar).reverse := by
      calc l.dropWhile isSpaceChar
          = (l.dropWhile isSpaceChar).reverse.reverse := by
            rw [List.reverse_reverse]
        _ = ((l.dropWhile isSpaceChar).reverse.takeWhile isSpaceChar ++
              (l.dropWhile isSpaceChar).reverse.dropWhile isSpaceChar).reverse := by
            rw [List.takeWhile_append_dropWhile]
        _ = strip l ++
              ((l.dropWhile isSpaceChar).reverse.takeWhile isSpaceChar).reverse := by
            rw [List.reverse_append]
            rfl
    calc l = l.takeWhile isSpaceChar ++ l.dropWhile isSpaceChar := by
          rw [List.takeWhile_append_dropWhile]
      _ = l.takeWhile isSpaceChar ++ (strip l ++
            ((l.dropWhile isSpaceChar).reverse.takeWhile isSpaceChar).reverse) := by
          rw [← hd]
      _ = l.takeWhile isSpaceChar ++ strip l ++
            ((l.dropWhile isSpaceChar).reverse.takeWhile isSpaceChar).reverse := by
          rw [List.append_assoc]

/-- C2: for any two well-formed (present) source files, and any outcome of the
set-iteration order and shuffle (any permutation of the merged result), the
Merger's output has no duplicate entries, its entries are exactly the
lowercased stripped non-blank lines of the two files, and every entry is
lowercase and non-empty; merging `["apple","Banana","apple"]` with
`["cherry"]` yields exactly the unique 3-element set
{"apple","banana","cherry"}. -/
theorem merger_unique_lowercase (e i out shuffled : List Word)
    (hout : load_and_merge_words (some e) (some i) = .ok out)
    (hperm : shuffled.Perm out) :
    shuffled.Nodup ∧
    (∀ w, w ∈ shuffled ↔
      ∃ l, (l ∈ e ∨ l ∈ i) ∧ (strip l).isEmpty = false ∧ w = lower (strip l)) ∧
    (∀ w ∈ shuffled, lower w = w ∧ w ≠ []) ∧
    ∃ ex : List Word,
      load_and_merge_words
          (some [ofString "apple", ofString "Banana", ofString "apple"])
          (some [ofString "cherry"]) = .ok ex ∧
      ex.Perm [ofString "apple", ofString "banana", ofString "cherry"] ∧
      ex.length = 3 := by
  have hout' : out = (processLines e ++ processLines i).dedup := by
    simp only [load_and_merge_words] at hout
    exact (Except.ok.inj hout).symm
  have hmem : ∀ w, w ∈ shuffled ↔
      ∃ l, (l ∈ e ∨ l ∈ i) ∧ (strip l).isEmpty = false ∧ w = lower (strip l) := by
    intro w
    rw [hperm.mem_iff, hout', List.mem_dedup, List.mem_append,
      mem_processLines, mem_processLines]
    constructor
    · rintro (⟨l, hl, hne, rfl⟩ | ⟨l, hl, hne, rfl⟩)
      · exact ⟨l, Or.inl hl, hne, rfl⟩
      · exact ⟨l, Or.inr hl, hne, rfl⟩
    · rintro ⟨l, hl | hl, hne, rfl⟩
      · exact Or.inl ⟨l, hl, hne, rfl⟩
      · exact Or.inr ⟨l, hl, hne, rfl⟩
  refine ⟨?_, hmem, ?_, ?_⟩
  · exact hperm.symm.nodup (hout' ▸ List.nodup_dedup _)
  · intro w hw
    obtain ⟨l, _, hne, rfl⟩ := (hmem w).mp hw
    refine ⟨lower_idem _, ?_⟩
    intro hnil
    rw [lower, List.map_eq_nil_iff] at hnil
    rw [hnil] at hne
    simp at hne
  · exact ⟨_, rfl, by decide, by decide⟩

/-- Witness for C2 on the spec's concrete example files. -/
theorem merger_unique_lowercase_witness :
    ([ofString "banana", ofString "apple", ofString "cherry"] : List Word).Nodup ∧
    (∀ w, w ∈ ([ofString "banana", ofString "apple", ofString "cherry"] : List Word) ↔
      ∃ l, (l ∈ [ofString "apple", ofString "Banana", ofString "apple"] ∨
            l ∈ [ofString "cherry"]) ∧
        (strip l).isEmpty = false ∧ w = lower (strip l)) ∧
    (∀ w ∈ ([ofString "banana", ofString "apple", ofString "cherry"] : List Word),
      lower w = w ∧ w ≠ []) ∧
    ∃ ex : List Word,
      load_and_merge_words
          (some [ofString "apple", ofString "Banana", ofString "apple"])
          (some [ofString "cherry"]) = .ok ex ∧
      ex.Perm [ofString "apple", ofString "banana", ofString "cherry"] ∧
      ex.length = 3 :=
  merger_unique_lowercase [ofString "apple", ofString "Banana", ofString "apple"]
    [ofString "cherry"] [ofString "banana", ofString "apple", ofString "cherry"]
    [ofString "banana", ofString "apple", ofString "cherry"] rfl (List.Perm.refl _)

/-- C10: every Merger collection entry arises from a source line by removing
only a leading and a trailing run of whitespace and lowercasing the remaining
core code-point-by-code-point: interior characters (including interior
whitespace and hyphens) are preserved in place, so an entry may itself contain
a hyphen. -/
theorem merger_strips_only_ends (lines : List Word) (w : Word)
    (hw : w ∈ processLines lines) :
    ∃ l, l ∈ lines ∧ ∃ pre suf : Word,
      (∀ c ∈ pre, isSpaceChar c = true) ∧ (∀ c ∈ suf, isSpaceChar c = true) ∧
      l = pre ++ strip l ++ suf ∧ w = lower (strip l) ∧
      w.length = (strip l).length ∧
      ∀ k : Nat, w[k]? = ((strip l)[k]?).map lowerChar := by
  obtain ⟨l, hl, _, rfl⟩ := (mem_processLines lines _).mp hw
  obtain ⟨pre, suf, hpre, hsuf, hsplit⟩ := strip_split l
  refine ⟨l, hl, pre, suf, hpre, hsuf, hsplit, rfl, ?_, ?_⟩
  · rw [lower, List.length_map]
  · intro k
    rw [lower, List.getElem?_map]

/-- Witness for C10 on a line with interior hyphen and interior space;
the resulting entry `"foo-bar baz"` contains the hyphen code point 45. -/
theorem merger_strips_only_ends_witness :
    (∃ l, l ∈ [ofString "  Foo-Bar baz  "] ∧ ∃ pre suf : Word,
      (∀ c ∈ pre, isSpaceChar c = true) ∧ (∀ c ∈ suf, isSpaceChar c = true) ∧
      l = pre ++ strip l ++ suf ∧ ofString "foo-bar baz" = lower (strip l) ∧
      (ofString "foo-bar baz").length = (strip l).length ∧
      ∀ k : Nat, (ofString "foo-bar baz")[k]? = ((strip l)[k]?).map lowerChar) ∧
    45 ∈ ofString "foo-bar baz" :=
  ⟨merger_strips_only_ends [ofString "  Foo-Bar baz  "] (ofString "foo-bar baz")
    (by decide), by decide⟩

end Genpasw
